import Mathlib

/-!
Verification development for the instantspeech repository.

Shallow embedding of the session/result state machine (App.tsx), the stage
recording component (Stage.tsx), the history persistence service
(historyService.ts) and the pace post-processing of the analyzer client
(geminiService.ts), together with theorems settling the specification
claims about them.

Numbers: JS `number` values that the embedded code manipulates are modelled
as exact rationals (ℚ) for time/progress quantities, integers (ℤ) for
millisecond clocks and rounded paces, and naturals (ℕ) for counts.
-/

namespace InstantSpeech

/-! ## Data model (types.ts) -/

inductive AppStep where
  | ONBOARDING
  | SETUP
  | STAGE
  | ANALYSIS
deriving DecidableEq

inductive SessionMode where
  | SPEECH
  | EXPRESS
  | COMEDY
  | DEBATE
deriving DecidableEq

inductive SpeechLevel where
  | BEGINNER
  | ADVANCED
  | EXPERT
deriving DecidableEq

structure SessionConfig where
  topic : String
  durationSeconds : ℚ
  language : String
  mode : SessionMode
  level : SpeechLevel
  prepTimeSeconds : ℚ
deriving DecidableEq

/-- Sub-scores of an analysis result.  The source field `structure` is a
reserved word in Lean and is embedded as `structureScore`. -/
structure SubScores where
  logic : ℕ
  delivery : ℕ
  structureScore : ℕ
  vocabulary : ℕ
  emotion : ℕ
deriving DecidableEq

/-- The `structure` field of `AnalysisResult` (field `example` of the source
is a reserved word in Lean and is embedded as `examplePart`). -/
structure StructureInfo where
  isPrep : Bool
  point : String
  reason : String
  examplePart : String
  pointRestated : String
  feedback : String
deriving DecidableEq

structure FrameworkItem where
  name : String
  description : String
  polishedScript : String
deriving DecidableEq

structure GrammarItem where
  original : String
  correction : String
  reason : String
deriving DecidableEq

structure ImprovementItem where
  original : String
  suggestion : String
  reason : String
deriving DecidableEq

/-- `AnalysisResult` from types.ts.  The source field `structure` is embedded
as `structureInfo`. -/
structure AnalysisResult where
  overallScore : ℕ
  subScores : SubScores
  transcript : String
  wpm : ℤ
  fillerWordCount : ℕ
  structureInfo : StructureInfo
  sentiment : String
  speechFramework : List FrameworkItem
  grammarAnalysis : List GrammarItem
  improvements : List ImprovementItem
  strengths : List String
  weaknesses : List String
deriving DecidableEq

structure HistoryItem where
  id : String
  date : String
  topic : String
  mode : SessionMode
  score : ℕ
  wpm : ℤ
  sentiment : String
  fullResult : AnalysisResult
deriving DecidableEq

/-! ## HistoryStore (historyService.ts)

The backing `localStorage` slot for the single namespaced key is modelled by
`StoredValue`: the key can be absent, hold an unparsable string, or hold a
parsable JSON array of history items.  `getThrows`/`setThrows` model the
storage access itself throwing (quota/security errors).  The `E`-suffixed
functions are the raw bodies that can throw (`Except`); the plain functions
wrap them with the source's try/catch. -/

inductive StoredValue where
  | absent
  | unparsable
  | items (l : List HistoryItem)
deriving DecidableEq

structure Storage where
  value : StoredValue
  getThrows : Bool
  setThrows : Bool
deriving DecidableEq

/-- Body of `getHistory`: `localStorage.getItem` (throws if `getThrows`),
then `stored ? JSON.parse(stored) : []` (parsing an unparsable value
throws). -/
def getHistoryE (s : Storage) : Except Unit (List HistoryItem) :=
  if s.getThrows then .error () else
    match s.value with
    | .absent => .ok []
    | .unparsable => .error ()
    | .items l => .ok l

/-- `getHistory` of historyService.ts: the try/catch around `getHistoryE`
degrades every failure to the empty list. -/
def getHistory (s : Storage) : List HistoryItem :=
  match getHistoryE s with
  | .ok l => l
  | .error _ => []

/-- Body of `saveHistoryItem`: read the current history (itself caught
internally), prepend, truncate to 20, then `localStorage.setItem` (throws if
`setThrows`). -/
def saveHistoryItemE (s : Storage) (item : HistoryItem) : Except Unit Storage :=
  let history := getHistory s
  let updated := (item :: history).take 20
  if s.setThrows then .error () else .ok { s with value := .items updated }

/-- `saveHistoryItem` of historyService.ts: the try/catch leaves the storage
untouched when the write throws. -/
def saveHistoryItem (s : Storage) (item : HistoryItem) : Storage :=
  match saveHistoryItemE s item with
  | .ok s2 => s2
  | .error _ => s

/-! ## Pace post-processing of `analyzeSpeech` (geminiService.ts)

After parsing the remote JSON, the source recomputes the pace locally and
overwrites `result.wpm`.  All string operations below follow the JS code:
`language.toLowerCase().includes(...)`, `transcript.replace(/[^一-龥a-zA-Z0-9]/g, "")`,
`transcript.trim().split(/\s+/)`, `Math.max(durationSeconds, 1)` and
`Math.round` (half-up, which is Mathlib's `round` on ℚ). -/

/-- Is `pat` a leading segment of `l`?  (Helper for the JS `includes`.) -/
def leadMatch : List Char → List Char → Bool
  | [], _ => true
  | _ :: _, [] => false
  | p :: ps, c :: cs => p = c && leadMatch ps cs

/-- Does `l` contain `pat` as a contiguous segment?  (JS `String.includes`.) -/
def hasSegment : List Char → List Char → Bool
  | [], pat => leadMatch pat []
  | c :: cs, pat => leadMatch pat (c :: cs) || hasSegment cs pat

/-- JS `s.toLowerCase().includes(pat)` (ASCII lowercasing, as the probed
language tags are ASCII). -/
def lowerIncludes (s pat : String) : Bool :=
  hasSegment (s.toList.map Char.toLower) pat.toList

/-- The `isChinese` test of `analyzeSpeech`: the lowercased language tag
contains one of "cantonese", "mandarin", "chinese", "japanese". -/
def isChineseLang (language : String) : Bool :=
  lowerIncludes language "cantonese" ||
  lowerIncludes language "mandarin" ||
  lowerIncludes language "chinese" ||
  lowerIncludes language "japanese"

/-- A character kept by `replace(/[^一-龥a-zA-Z0-9]/g, "")`:
CJK unified ideographs U+4E00–U+9FA5, ASCII letters, ASCII digits. -/
def isCjkKeep (c : Char) : Bool :=
  (0x4e00 ≤ c.toNat && c.toNat ≤ 0x9fa5) ||
  (('a' : Char) ≤ c && c ≤ 'z') ||
  (('A' : Char) ≤ c && c ≤ 'Z') ||
  (('0' : Char) ≤ c && c ≤ '9')

/-- Length of the transcript after stripping non-CJK-non-alphanumeric
characters (the CJK branch of the pace computation). -/
def cjkCount (transcript : String) : ℕ :=
  (transcript.toList.filter isCjkKeep).length

/-- Whitespace, as matched by the JS `\s` class on the characters that occur
here. -/
def isWs (c : Char) : Bool :=
  c.isWhitespace

/-- JS `String.trim`: strip leading and trailing whitespace. -/
def jsTrim (l : List Char) : List Char :=
  ((l.dropWhile isWs).reverse.dropWhile isWs).reverse

/-- Fold step counting maximal whitespace-free runs; the state is
`(count, currently inside a run)`. -/
def tokenStep (acc : ℕ × Bool) (c : Char) : ℕ × Bool :=
  if isWs c then (acc.1, false)
  else (if acc.2 then acc.1 else acc.1 + 1, true)

/-- Number of maximal whitespace-free runs of a character list. -/
def countTokens (l : List Char) : ℕ :=
  (l.foldl tokenStep (0, false)).1

/-- `s.split(/\s+/).length` for an already trimmed `s` (as in the source,
where `trim()` is applied first).  JS quirk embedded faithfully: splitting
the empty string yields `[""]`, i.e. length 1; on a trimmed nonempty string
the parts are exactly the maximal whitespace-free runs. -/
def jsSplitWsLen (trimmed : List Char) : ℕ :=
  if trimmed = [] then 1 else countTokens trimmed

/-- The Latin branch of the pace computation:
`transcript.trim().split(/\s+/).length`. -/
def latinCount (transcript : String) : ℕ :=
  jsSplitWsLen (jsTrim transcript.toList)

/-- The specification's "whitespace-tokenized word count" of a transcript,
stated independently of the source's `trim().split()` phrasing: the number
of maximal whitespace-free runs.  Used to compare the code's pace against
the spec's formula. -/
def specWordCount (transcript : String) : ℕ :=
  countTokens transcript.toList

/-- `contentCount` of `analyzeSpeech`: 0 when the transcript is falsy
(empty), else the CJK character count or the JS whitespace-split count. -/
def contentCount (transcript language : String) : ℕ :=
  if transcript = "" then 0
  else if isChineseLang language then cjkCount transcript
  else latinCount transcript

/-- `calculatedPace` of `analyzeSpeech`:
`Math.round(contentCount / (Math.max(durationSeconds, 1) / 60))`. -/
def calculatedPace (transcript language : String) (durationSeconds : ℚ) : ℤ :=
  let safeDuration : ℚ := max durationSeconds 1
  round ((contentCount transcript language : ℚ) / (safeDuration / 60))

/-- The post-parsing step `result.wpm = calculatedPace` of `analyzeSpeech`:
overwrites whatever `wpm` the remote supplied. -/
def applyPaceOverride (result : AnalysisResult) (language : String)
    (durationSeconds : ℚ) : AnalysisResult :=
  { result with wpm := calculatedPace result.transcript language durationSeconds }

/-! ## Analysis progress simulator and tip carousel (App.tsx) -/

/-- One 100 ms tick of the simulated-progress interval:
`prev >= 99 ? 99 : prev + 100 / (45000 / 100)`. -/
def progressTick (prev : ℚ) : ℚ :=
  if prev ≥ 99 then 99 else prev + 100 / (45000 / 100)

/-- Progress value after `n` ticks, starting from the `setProgress(0)` that
runs when the analyzing flag is set. -/
def progressAfter (n : ℕ) : ℚ :=
  progressTick^[n] 0

/-- The fixed tip corpus `SPEECH_TIPS` of App.tsx. -/
def SPEECH_TIPS : List String := [
  "Pause for 2-3 seconds before answering to show thoughtfulness.",
  "Use the PREP method: Point, Reason, Example, Point.",
  "Maintain eye contact with the camera to simulate audience connection.",
  "Vary your vocal tone to keep the audience engaged.",
  "Avoid filler words like \x27um\x27 and \x27ah\x27 by pausing instead.",
  "Start with a hook: a story, a statistic, or a question.",
  "End with a call to action or a memorable closing statement.",
  "Use hand gestures naturally to emphasize key points.",
  "Speak slightly slower than your normal conversation speed.",
  "Structure your speech with a clear beginning, middle, and end.",
  "Use \x27Rule of Three\x27 for lists (e.g., \x27Life, Liberty, and Pursuit of Happiness\x27).",
  "Smile when appropriate; it changes the tone of your voice.",
  "Anchor your body; avoid swaying or pacing aimlessly.",
  "Use analogies to explain complex concepts.",
  "Address the audience directly using \x27you\x27.",
  "If you stumble, just pause, smile, and continue.",
  "Use silence as a tool to let important points sink in.",
  "Articulate your words clearly, especially consonants.",
  "Check your lighting; ensure your face is clearly visible.",
  "Breath from your diaphragm to project confidence.",
  "Don\x27t memorize; internalize the key points instead.",
  "Visualize a successful speech before you start.",
  "Use a \x27Past, Present, Future\x27 structure for storytelling.",
  "Turn nervous energy into enthusiasm.",
  "Keep your sentences relatively short and punchy.",
  "Ask rhetorical questions to engage the audience\x27s mind.",
  "Use contrast (e.g., \x27Not only X, but also Y\x27).",
  "Acknowledge the counter-argument to build credibility.",
  "Record yourself often to identify subconscious habits.",
  "Be yourself; authenticity resonates more than perfection."
]

/-- One 5000 ms tick of the tip carousel:
`setCurrentTipIndex(prev => (prev + 1) % activeTips.length)`. -/
def tipTick (len : ℕ) (i : ℕ) : ℕ :=
  (i + 1) % len

/-- Displayed tip index after `n` carousel ticks, starting from the
`setCurrentTipIndex(0)` that runs when analysis starts. -/
def tipIndexAfter (len : ℕ) (n : ℕ) : ℕ :=
  (tipTick len)^[n] 0

/-! ## Stage recording component (Stage.tsx) -/

/-- One hardware media track; `track.stop()` sets `stopped`. -/
structure MediaTrack where
  stopped : Bool
deriving DecidableEq

/-- The encoded recording produced by `recorder.onstop`:
`new Blob(chunksRef.current, { type: mimeType || 'audio/webm' })`.
Chunks are opaque binary fragments, modelled by naturals. -/
structure Blob where
  chunks : List ℕ
  type : String
deriving DecidableEq

/-- The ref-held resources of a mounted Stage: the acquired stream's tracks
(`streamRef`), the audio context with its closed flag (`audioContextRef`),
and whether a volume-sampling animation frame is scheduled
(`animationFrameRef`).  `none` models a null ref. -/
structure StageResources where
  streamTracks : Option (List MediaTrack)
  audioContextClosed : Option Bool
  animFrameScheduled : Option Bool
deriving DecidableEq

/-- `stream.getTracks().forEach(track => track.stop())`. -/
def stopAllTracks (ts : List MediaTrack) : List MediaTrack :=
  ts.map (fun t => { t with stopped := true })

/-- The `recorder.onstop` handler: finalizes the accumulated chunks into a
blob, computes the delivered duration (wall-clock delta in seconds, falling
back to `config.durationSeconds - timeLeft` when the delta is not positive),
stops every track of the stream, and returns the `(blob, duration)` pair
handed to `onFinish` together with the updated resources.  It touches no
other resource. -/
def recorderOnstop (chunks : List ℕ) (mimeType : String) (nowMs startMs : ℤ)
    (configDurationSeconds timeLeft : ℚ) (r : StageResources) :
    (Blob × ℚ) × StageResources :=
  let blob : Blob := { chunks := chunks, type := if mimeType = "" then "audio/webm" else mimeType }
  let duration : ℚ := ((nowMs : ℚ) - (startMs : ℚ)) / 1000
  let finalDuration : ℚ := if duration > 0 then duration else configDurationSeconds - timeLeft
  ((blob, finalDuration), { r with streamTracks := r.streamTracks.map stopAllTracks })

/-- The cleanup returned by the Stage setup effect, run on unmount (any exit
from the stage view): stop all tracks, close the audio context, cancel the
volume-sampling animation frame — each guarded by a null check on its ref. -/
def stageEffectCleanup (r : StageResources) : StageResources :=
  { streamTracks := r.streamTracks.map stopAllTracks,
    audioContextClosed := r.audioContextClosed.map (fun _ => true),
    animFrameScheduled := r.animFrameScheduled.map (fun _ => false) }

/-- `addTime` of Stage.tsx: `setTimeLeft(prev => prev + 15)`. -/
def addTime (timeLeft : ℚ) : ℚ :=
  timeLeft + 15

/-- The add-time button as rendered: `disabled={!isRecording}`, so a click
only runs `addTime` while recording. -/
def addTimeButton (isRecording : Bool) (timeLeft : ℚ) : ℚ :=
  if isRecording then addTime timeLeft else timeLeft

/-! ## Session state machine (App.tsx) -/

/-- The App component state relevant to the session state machine. -/
structure AppState where
  step : AppStep
  analysisResult : Option AnalysisResult
  currentAudioBlob : Option Blob
  recordedDuration : ℚ
  isAnalyzing : Bool
  sessionConfig : SessionConfig
  storage : Storage
deriving DecidableEq

/-- `handleSessionFinish` of App.tsx.  The awaited `analyzeSpeech` call is an
external suspension point; its outcome is passed in as
`analyzerOutcome : Except Unit AnalysisResult` (error = the call threw).
`nowMs`/`nowIso` stand for `Date.now()` and `new Date().toISOString()`.
On success it attaches the result, saves a history item and moves to
ANALYSIS; on failure (the catch block) it alerts, clears the analyzing flag
and moves back to SETUP — touching neither `analysisResult` nor
`currentAudioBlob`. -/
def handleSessionFinish (analyzerOutcome : Except Unit AnalysisResult)
    (nowMs : ℤ) (nowIso : String) (audioBlob : Blob) (duration : ℚ)
    (s : AppState) : AppState :=
  let s1 := { s with isAnalyzing := true, currentAudioBlob := some audioBlob,
                     recordedDuration := duration }
  match analyzerOutcome with
  | .ok result =>
    let historyItem : HistoryItem :=
      { id := toString nowMs, date := nowIso, topic := s1.sessionConfig.topic,
        mode := s1.sessionConfig.mode, score := result.overallScore,
        wpm := result.wpm, sentiment := result.sentiment, fullResult := result }
    { s1 with analysisResult := some result,
              storage := saveHistoryItem s1.storage historyItem,
              isAnalyzing := false, step := .ANALYSIS }
  | .error _ =>
    { s1 with isAnalyzing := false, step := .SETUP }

/-! ## Concrete sample values used by witnesses and counterexamples -/

/-- Do all tracks of a (possibly null) stream hold in a stopped state?
Vacuously true for a null stream: no active tracks. -/
def tracksAllStopped (o : Option (List MediaTrack)) : Bool :=
  (o.getD []).all (fun t => t.stopped)

def defaultSubScores : SubScores :=
  { logic := 0, delivery := 0, structureScore := 0, vocabulary := 0, emotion := 0 }

def defaultStructureInfo : StructureInfo :=
  { isPrep := false, point := "", reason := "", examplePart := "",
    pointRestated := "", feedback := "" }

def defaultAnalysisResult : AnalysisResult :=
  { overallScore := 0, subScores := defaultSubScores, transcript := "", wpm := 0,
    fillerWordCount := 0, structureInfo := defaultStructureInfo, sentiment := "",
    speechFramework := [], grammarAnalysis := [], improvements := [],
    strengths := [], weaknesses := [] }

def mkHistoryItem (n : ℕ) : HistoryItem :=
  { id := toString n, date := "", topic := "", mode := .SPEECH, score := 0,
    wpm := 0, sentiment := "", fullResult := defaultAnalysisResult }

/-- A remote result carrying the claim's Latin transcript and a remote-supplied
pace of 999 (to be overridden). -/
def sampleResultLatin : AnalysisResult :=
  { defaultAnalysisResult with transcript := "the quick brown fox jumps", wpm := 999 }

/-- A remote result carrying a CJK transcript of 20 content characters. -/
def sampleResultCjk : AnalysisResult :=
  { defaultAnalysisResult with transcript := "你好你好你好你好你好你好你好你好你好你好", wpm := 999 }

def sampleConfig : SessionConfig :=
  { topic := "Test topic", durationSeconds := 60, language := "English",
    mode := .SPEECH, level := .BEGINNER, prepTimeSeconds := 0 }

def sampleBlob : Blob :=
  { chunks := [1, 2], type := "audio/webm" }

/-- App state on entering the stage: no result, no blob, not analyzing. -/
def sampleStageAppState : AppState :=
  { step := .STAGE, analysisResult := none, currentAudioBlob := none,
    recordedDuration := 0, isAnalyzing := false, sessionConfig := sampleConfig,
    storage := { value := .items [], getThrows := false, setThrows := false } }

/-- Stage refs mid-recording: one live track, open audio context, scheduled
volume-sampling frame. -/
def sampleResources : StageResources :=
  { streamTracks := some [{ stopped := false }],
    audioContextClosed := some false,
    animFrameScheduled := some true }

/-! # Theorems -/

/-! ## HistoryStore -/

theorem take_cons_take {α : Type} (n : ℕ) (xs ys : List α) :
    (xs ++ ys.take n).take n = (xs ++ ys).take n := by
  rw [List.take_append_eq_append_take, List.take_append_eq_append_take,
    List.take_take]
  have hmin : min (n - xs.length) n = n - xs.length := by omega
  rw [hmin]

theorem saveHistoryItem_items (h : List HistoryItem) (i : HistoryItem) :
    saveHistoryItem { value := .items h, getThrows := false, setThrows := false } i
      = { value := .items ((i :: h).take 20), getThrows := false,
          setThrows := false } :=
  rfl

theorem foldl_saveHistoryItem (L : List HistoryItem) (h : List HistoryItem)
    (hh : h.length ≤ 20) :
    L.foldl (fun st i => saveHistoryItem st i)
        { value := .items h, getThrows := false, setThrows := false }
      = { value := .items ((L.reverse ++ h).take 20), getThrows := false,
          setThrows := false } := by
  induction L generalizing h with
  | nil => simp [List.take_of_length_le hh]
  | cons x xs ih =>
    rw [List.foldl_cons, saveHistoryItem_items,
      ih ((x :: h).take 20) (by simp)]
    have hrw : (xs.reverse ++ (x :: h).take 20).take 20
        = (xs.reverse ++ x :: h).take 20 := take_cons_take 20 xs.reverse (x :: h)
    simp only [hrw, List.reverse_cons, List.append_assoc, List.cons_append,
      List.nil_append]

/-- C4: `HistoryStore.append` prepends and truncates to the 20 most recent;
starting from any stored log (of any length), any 25 appends in sequence
leave exactly the 20 most-recently-appended items in most-recent-first
order. -/
theorem append_25_leaves_last_20 (start items : List HistoryItem)
    (hlen : items.length = 25) :
    items.foldl (fun st i => saveHistoryItem st i)
        { value := .items start, getThrows := false, setThrows := false }
      = { value := .items (items.reverse.take 20), getThrows := false,
          setThrows := false } := by
  cases items with
  | nil => simp at hlen
  | cons x xs =>
    rw [List.foldl_cons, saveHistoryItem_items,
      foldl_saveHistoryItem xs ((x :: start).take 20) (by simp)]
    have hrw : (xs.reverse ++ (x :: start).take 20).take 20
        = (xs.reverse ++ x :: start).take 20 :=
      take_cons_take 20 xs.reverse (x :: start)
    have hlong : (xs.reverse ++ x :: start).take 20
        = ((x :: xs).reverse).take 20 := by
      rw [List.reverse_cons]
      have h1 : (xs.reverse ++ x :: start) = (xs.reverse ++ [x]) ++ start := by
        simp
      rw [h1, List.take_append_of_le_length]
      simp at hlen ⊢
      omega
    rw [hrw, hlong]

/-- Witness for C4 at a concrete starting log and 25 concrete items. -/
theorem append_25_leaves_last_20_witness :
    ((List.range 25).map mkHistoryItem).length = 25 ∧
    ((List.range 25).map mkHistoryItem).foldl (fun st i => saveHistoryItem st i)
        { value := .items [mkHistoryItem 99], getThrows := false,
          setThrows := false }
      = { value := .items (((List.range 25).map mkHistoryItem).reverse.take 20),
          getThrows := false, setThrows := false } :=
  ⟨by rfl, append_25_leaves_last_20 [mkHistoryItem 99] _ (by rfl)⟩

/-- Counterexample to C9 as stated: with the backing key absent (a listed
"backing-storage condition") and the write not throwing, `append` is not a
no-op — it writes the one-item log. -/
theorem append_absent_writes :
    saveHistoryItem { value := .absent, getThrows := false, setThrows := false }
        (mkHistoryItem 0)
      ≠ { value := .absent, getThrows := false, setThrows := false } ∧
    saveHistoryItem { value := .absent, getThrows := false, setThrows := false }
        (mkHistoryItem 0)
      = { value := .items [mkHistoryItem 0], getThrows := false,
          setThrows := false } :=
  ⟨by decide, rfl⟩

/-- C9 amended: under every failed-backing condition (key absent, stored
value unparsable, storage access throwing) `list` returns the empty list;
`append` never propagates an exception (both operations are total by the
embedded try/catch): it leaves the storage untouched when the write access
throws, and otherwise treats the log as empty and overwrites the slot with
the single new item. -/
theorem history_degraded (s : Storage) (item : HistoryItem)
    (hfail : s.getThrows = true ∨ s.value = .absent ∨ s.value = .unparsable) :
    getHistory s = [] ∧
    (s.setThrows = true → saveHistoryItem s item = s) ∧
    (s.setThrows = false →
      saveHistoryItem s item = { s with value := .items [item] }) := by
  obtain ⟨v, g, st⟩ := s
  have hget : getHistory ⟨v, g, st⟩ = [] := by
    rcases hfail with h | h | h
    · simp only at h
      subst h
      simp [getHistory, getHistoryE]
    · simp only at h
      subst h
      cases g <;> simp [getHistory, getHistoryE]
    · simp only at h
      subst h
      cases g <;> simp [getHistory, getHistoryE]
  refine ⟨hget, ?_, ?_⟩ <;> intro hst <;> subst hst <;>
    simp [saveHistoryItem, saveHistoryItemE, hget]

/-- Witness for C9 (amended) at an unparsable stored value. -/
theorem history_degraded_witness :
    ((Storage.mk .unparsable false false).getThrows = true ∨
      (Storage.mk .unparsable false false).value = .absent ∨
      (Storage.mk .unparsable false false).value = .unparsable) ∧
    (getHistory (Storage.mk .unparsable false false) = [] ∧
      ((Storage.mk .unparsable false false).setThrows = true →
        saveHistoryItem (Storage.mk .unparsable false false) (mkHistoryItem 1)
          = Storage.mk .unparsable false false) ∧
      ((Storage.mk .unparsable false false).setThrows = false →
        saveHistoryItem (Storage.mk .unparsable false false) (mkHistoryItem 1)
          = { Storage.mk .unparsable false false with
                value := .items [mkHistoryItem 1] })) :=
  ⟨Or.inr (Or.inr rfl),
    history_degraded (Storage.mk .unparsable false false) (mkHistoryItem 1)
      (Or.inr (Or.inr rfl))⟩

/-! ## Analysis progress simulator -/

/-- Closed form of the simulated progress: it climbs linearly by 2/9 per
100 ms tick for 446 ticks (overshooting 99 on the last of them, because the
`>= 99` guard tests the value before the increment), then sits at exactly
99. -/
theorem progressAfter_eq (n : ℕ) :
    progressAfter n = if n ≤ 446 then (n : ℚ) * (2 / 9) else 99 := by
  induction n with
  | zero => simp [progressAfter]
  | succ k ih =>
    rw [progressAfter, Function.iterate_succ_apply']
    rw [show progressTick^[k] 0 = progressAfter k from rfl, ih]
    by_cases hk : k ≤ 446
    · rw [if_pos hk]
      by_cases hk2 : k + 1 ≤ 446
      · have hk445 : k ≤ 445 := by omega
        have hlt : (k : ℚ) * (2 / 9) < 99 := by
          have hc : (k : ℚ) ≤ 445 := by exact_mod_cast hk445
          linarith
        rw [progressTick, if_neg (not_le.mpr hlt), if_pos hk2]
        push_cast
        ring
      · have hk446 : k = 446 := by omega
        subst hk446
        rw [progressTick, if_pos (by norm_num), if_neg hk2]
    · rw [if_neg hk, progressTick, if_pos (by norm_num),
        if_neg (by omega : ¬ k + 1 ≤ 446)]

/-- Counterexample to C2 as stated: on tick 446 the progress value reaches
892/9 ≈ 99.11 > 99 (the guard is checked before the increment is added), and
on tick 447 it is clamped back down to 99, so the raw value both exceeds 99
and strictly decreases once while the analyzing flag is still set. -/
theorem progress_overshoots_99 :
    progressAfter 446 > 99 ∧ progressAfter 447 < progressAfter 446 := by
  rw [progressAfter_eq 446, progressAfter_eq 447]
  norm_num

/-- C2 amended: under the 100 ms tick the progress value stays below
99 + 2/9 (in particular below 100) for as long as the analyzing flag is set;
the rendered value `Math.floor(progress)` never exceeds 99 and is
monotonically non-decreasing; the raw value is non-decreasing except for the
single clamp step after the overshoot tick. -/
theorem progress_bounded (n : ℕ) :
    progressAfter n ≤ 99 + 2 / 9 ∧
    ⌊progressAfter n⌋ ≤ 99 ∧
    ⌊progressAfter n⌋ ≤ ⌊progressAfter (n + 1)⌋ := by
  have hbound : progressAfter n ≤ 99 + 2 / 9 := by
    rw [progressAfter_eq]
    by_cases hn : n ≤ 446
    · rw [if_pos hn]
      have hc : (n : ℚ) ≤ 446 := by exact_mod_cast hn
      linarith
    · rw [if_neg hn]
      norm_num
  have hfloor : ⌊progressAfter n⌋ ≤ 99 := by
    have hlt : progressAfter n < ((100 : ℤ) : ℚ) := by
      push_cast
      linarith
    have := Int.floor_lt.mpr hlt
    omega
  refine ⟨hbound, hfloor, ?_⟩
  rw [progressAfter_eq n, progressAfter_eq (n + 1)]
  by_cases hn1 : n + 1 ≤ 446
  · rw [if_pos (by omega : n ≤ 446), if_pos hn1]
    apply Int.floor_le_floor
    have hc : (n : ℚ) ≤ (n : ℚ) + 1 := by linarith
    push_cast
    nlinarith
  · by_cases hn : n ≤ 446
    · have h446 : n = 446 := by omega
      subst h446
      rw [if_pos (by norm_num), if_neg hn1]
      have h1 : ⌊((446 : ℕ) : ℚ) * (2 / 9)⌋ = 99 := by
        have hv : ((446 : ℕ) : ℚ) * (2 / 9) = 892 / 9 := by
          push_cast
          norm_num
        rw [hv, Int.floor_eq_iff]
        norm_num
      have h2 : ⌊(99 : ℚ)⌋ = 99 := by
        norm_num
      omega
    · rw [if_neg hn, if_neg hn1]

/-! ## Tip selection and rotation -/

theorem speechTips_nodup : SPEECH_TIPS.Nodup := by
  decide

theorem tipIndexAfter_five (n : ℕ) : tipIndexAfter 5 n = n % 5 := by
  induction n with
  | zero => rfl
  | succ k ih =>
    rw [tipIndexAfter, Function.iterate_succ_apply',
      show (tipTick 5)^[k] 0 = tipIndexAfter 5 k from rfl, ih, tipTick]
    omega

/-- C5: whatever permutation of the corpus the random comparator sort
produces, the active-tips list is its first 5 entries: exactly 5 pairwise
distinct tips from the 30-item corpus, and the carousel index, starting at 0
and advancing by `(i+1) % 5` every 5000 ms, cycles through positions
0..4 only — so only the 5 selected tips are ever shown. -/
theorem tips_five_distinct_cycle (shuffled : List String)
    (hperm : shuffled.Perm SPEECH_TIPS) :
    SPEECH_TIPS.length = 30 ∧
    (shuffled.take 5).length = 5 ∧
    (shuffled.take 5).Nodup ∧
    (∀ t ∈ shuffled.take 5, t ∈ SPEECH_TIPS) ∧
    (∀ n : ℕ, tipIndexAfter (shuffled.take 5).length n = n % 5 ∧
      (shuffled.take 5).getD (tipIndexAfter (shuffled.take 5).length n) ""
        ∈ shuffled.take 5) := by
  have hlen : shuffled.length = 30 := by
    rw [hperm.length_eq]
    rfl
  have htake : (shuffled.take 5).length = 5 := by
    rw [List.length_take, hlen]
    rfl
  refine ⟨rfl, htake, ?_, ?_, ?_⟩
  · exact ((hperm.nodup_iff).mpr speechTips_nodup).sublist (List.take_sublist 5 shuffled)
  · intro t ht
    exact hperm.subset (List.mem_of_mem_take ht)
  · intro n
    rw [htake]
    refine ⟨tipIndexAfter_five n, ?_⟩
    have hidx : tipIndexAfter 5 n < (shuffled.take 5).length := by
      rw [htake, tipIndexAfter_five]
      omega
    rw [List.getD_eq_getElem (shuffled.take 5) "" hidx]
    exact List.getElem_mem hidx

/-- Witness for C5 at the identity permutation of the corpus. -/
theorem tips_five_distinct_cycle_witness :
    SPEECH_TIPS.Perm SPEECH_TIPS ∧
    (SPEECH_TIPS.length = 30 ∧
      (SPEECH_TIPS.take 5).length = 5 ∧
      (SPEECH_TIPS.take 5).Nodup ∧
      (∀ t ∈ SPEECH_TIPS.take 5, t ∈ SPEECH_TIPS) ∧
      (∀ n : ℕ, tipIndexAfter (SPEECH_TIPS.take 5).length n = n % 5 ∧
        (SPEECH_TIPS.take 5).getD (tipIndexAfter (SPEECH_TIPS.take 5).length n) ""
          ∈ SPEECH_TIPS.take 5)) :=
  ⟨List.Perm.refl SPEECH_TIPS,
    tips_five_distinct_cycle SPEECH_TIPS (List.Perm.refl SPEECH_TIPS)⟩

/-! ## Stage: delivered duration, extend-time, teardown -/

/-- C6: the duration delivered by the stop handler is the wall-clock delta
in seconds when that delta is positive, and exactly when the delta is
non-positive it is the configured duration minus the remaining countdown. -/
theorem stop_duration_fallback (chunks : List ℕ) (mimeType : String)
    (nowMs startMs : ℤ) (configDurationSeconds timeLeft : ℚ)
    (r : StageResources) :
    (startMs < nowMs →
      ((recorderOnstop chunks mimeType nowMs startMs configDurationSeconds
          timeLeft r).1).2 = ((nowMs : ℚ) - (startMs : ℚ)) / 1000) ∧
    (nowMs ≤ startMs →
      ((recorderOnstop chunks mimeType nowMs startMs configDurationSeconds
          timeLeft r).1).2 = configDurationSeconds - timeLeft) := by
  constructor
  · intro h
    have hpos : (0 : ℚ) < ((nowMs : ℚ) - (startMs : ℚ)) / 1000 := by
      have hlt : (startMs : ℚ) < (nowMs : ℚ) := by exact_mod_cast h
      have hsub : (0 : ℚ) < (nowMs : ℚ) - (startMs : ℚ) := by linarith
      positivity
    simp only [recorderOnstop, if_pos hpos]
  · intro h
    have hnp : ¬ ((0 : ℚ) < ((nowMs : ℚ) - (startMs : ℚ)) / 1000) := by
      have hle : (nowMs : ℚ) ≤ (startMs : ℚ) := by exact_mod_cast h
      have hsub : (nowMs : ℚ) - (startMs : ℚ) ≤ 0 := by linarith
      intro hcon
      have h1000 : (0 : ℚ) < 1000 := by norm_num
      nlinarith [mul_pos hcon h1000]
    simp only [recorderOnstop, if_neg hnp]

/-- Witness for C6: a 4-second wall-clock recording delivers 4; a zero
clock delta with 60 s configured and 50 s remaining delivers 10. -/
theorem stop_duration_fallback_witness :
    ((1000 : ℤ) < 5000 ∧
      ((recorderOnstop [] "" 5000 1000 60 30 sampleResources).1).2 = 4) ∧
    ((0 : ℤ) ≤ 0 ∧
      ((recorderOnstop [] "" 0 0 60 50 sampleResources).1).2 = 10) :=
  ⟨⟨by norm_num,
      ((stop_duration_fallback [] "" 5000 1000 60 30 sampleResources).1
        (by norm_num)).trans (by norm_num)⟩,
    ⟨le_refl 0,
      ((stop_duration_fallback [] "" 0 0 60 50 sampleResources).2
        (le_refl 0)).trans (by norm_num)⟩⟩

/-- C7: while recording, each press of the add-time button adds exactly 15
seconds; `N` presses add exactly `15 * N`, with no upper bound (the result
is exactly `t + 15 * N` however large); the button is disabled (a no-op)
outside RECORDING. -/
theorem extendTime_adds_15N (t : ℚ) (N : ℕ) :
    (addTimeButton true)^[N] t = t + 15 * N ∧
    addTimeButton true t = addTime t ∧
    addTimeButton false t = t := by
  refine ⟨?_, rfl, rfl⟩
  induction N with
  | zero => simp
  | succ k ih =>
    rw [Function.iterate_succ_apply', ih]
    show (if true = true then addTime (t + 15 * k) else t + 15 * k) = _
    rw [if_pos rfl, addTime]
    push_cast
    ring

/-- Counterexample to C8 as stated: immediately after `stopRecording`
completes (the `onstop` handler has run, the stage view still mounted, e.g.
while the analysis overlay is up), the tracks are stopped but the audio
context is still open and the volume-sampling animation frame is still
scheduled — those two are only released by the unmount cleanup. -/
theorem stop_leaves_context_open :
    tracksAllStopped
        ((recorderOnstop [] "audio/webm" 1000 0 60 0 sampleResources).2).streamTracks
      = true ∧
    ((recorderOnstop [] "audio/webm" 1000 0 60 0 sampleResources).2).audioContextClosed
      = some false ∧
    ((recorderOnstop [] "audio/webm" 1000 0 60 0 sampleResources).2).animFrameScheduled
      = some true :=
  ⟨rfl, rfl, rfl⟩

/-- C8 amended: after the stop handler runs, every hardware track of the
acquired stream is stopped (the capture session holds no active tracks); on
every exit from the stage view the unmount cleanup stops all tracks, closes
the audio context and cancels the volume-sampling animation frame, each
whenever the corresponding resource exists. -/
theorem stage_teardown_releases (chunks : List ℕ) (mimeType : String)
    (nowMs startMs : ℤ) (configDurationSeconds timeLeft : ℚ)
    (r : StageResources) :
    tracksAllStopped
        ((recorderOnstop chunks mimeType nowMs startMs configDurationSeconds
          timeLeft r).2).streamTracks = true ∧
    tracksAllStopped (stageEffectCleanup r).streamTracks = true ∧
    (stageEffectCleanup r).audioContextClosed ≠ some false ∧
    (stageEffectCleanup r).animFrameScheduled ≠ some true := by
  obtain ⟨ts, ac, af⟩ := r
  refine ⟨?_, ?_, ?_, ?_⟩
  · cases ts <;>
      simp [recorderOnstop, stageEffectCleanup, tracksAllStopped, stopAllTracks,
        List.all_eq_true]
  · cases ts <;>
      simp [stageEffectCleanup, tracksAllStopped, stopAllTracks,
        List.all_eq_true]
  · cases ac <;> simp [stageEffectCleanup]
  · cases af <;> simp [stageEffectCleanup]

/-! ## Session state machine: analyzer failure -/

/-- Counterexample to C1 as stated: after a failed analyzer call the catch
block returns to SETUP but never clears `currentAudioBlob`, so the recorded
blob is retained in the state, not discarded. -/
theorem analyzerFailure_blob_retained :
    (handleSessionFinish (.error ()) 0 "" sampleBlob 5
        sampleStageAppState).currentAudioBlob = some sampleBlob ∧
    some sampleBlob ≠ (none : Option Blob) :=
  ⟨rfl, by decide⟩

/-- C1 amended: on analyzer failure the session ends with no analysis
result attached (unchanged from the none it held), the step back at SETUP
and the analyzing flag cleared; the recorded blob is not retried but it is
retained in `currentAudioBlob` (together with its duration) rather than
discarded. -/
theorem analyzerFailure_returns_to_setup (nowMs : ℤ) (nowIso : String)
    (blob : Blob) (duration : ℚ) (s : AppState)
    (hres : s.analysisResult = none) :
    (handleSessionFinish (.error ()) nowMs nowIso blob duration s).analysisResult
      = none ∧
    (handleSessionFinish (.error ()) nowMs nowIso blob duration s).step
      = .SETUP ∧
    (handleSessionFinish (.error ()) nowMs nowIso blob duration s).isAnalyzing
      = false ∧
    (handleSessionFinish (.error ()) nowMs nowIso blob duration s).currentAudioBlob
      = some blob ∧
    (handleSessionFinish (.error ()) nowMs nowIso blob duration s).storage
      = s.storage := by
  refine ⟨?_, rfl, rfl, rfl, rfl⟩
  simp [handleSessionFinish, hres]

/-- Witness for C1 (amended) at a concrete stage-entry state. -/
theorem analyzerFailure_returns_to_setup_witness :
    sampleStageAppState.analysisResult = none ∧
    ((handleSessionFinish (.error ()) 0 "" sampleBlob 5
        sampleStageAppState).analysisResult = none ∧
      (handleSessionFinish (.error ()) 0 "" sampleBlob 5
        sampleStageAppState).step = .SETUP ∧
      (handleSessionFinish (.error ()) 0 "" sampleBlob 5
        sampleStageAppState).isAnalyzing = false ∧
      (handleSessionFinish (.error ()) 0 "" sampleBlob 5
        sampleStageAppState).currentAudioBlob = some sampleBlob ∧
      (handleSessionFinish (.error ()) 0 "" sampleBlob 5
        sampleStageAppState).storage = sampleStageAppState.storage) :=
  ⟨rfl, analyzerFailure_returns_to_setup 0 "" sampleBlob 5 sampleStageAppState rfl⟩

/-! ## Pace recomputation: token-count lemmas -/

theorem foldl_tokenStep_fst_of_ws (r : List Char) (hr : ∀ c ∈ r, isWs c = true) :
    ∀ st : ℕ × Bool, (r.foldl tokenStep st).1 = st.1 := by
  induction r with
  | nil => intro st; rfl
  | cons c cs ih =>
    intro st
    rw [List.foldl_cons]
    have hc : isWs c = true := hr c (List.mem_cons_self c cs)
    have hcs : ∀ d ∈ cs, isWs d = true := fun d hd => hr d (List.mem_cons_of_mem c hd)
    rw [ih hcs, tokenStep, if_pos hc]

theorem countTokens_dropWhile_ws (l : List Char) :
    countTokens (l.dropWhile isWs) = countTokens l := by
  induction l with
  | nil => rfl
  | cons c cs ih =>
    by_cases hc : isWs c = true
    · rw [List.dropWhile_cons_of_pos hc, ih]
      simp [countTokens, tokenStep, hc]
    · rw [List.dropWhile_cons_of_neg hc]

theorem countTokens_append_ws (l r : List Char) (hr : ∀ c ∈ r, isWs c = true) :
    countTokens (l ++ r) = countTokens l := by
  rw [countTokens, List.foldl_append, foldl_tokenStep_fst_of_ws r hr]
  rfl

theorem countTokens_jsTrim (l : List Char) :
    countTokens (jsTrim l) = countTokens l := by
  rw [jsTrim]
  set m := l.dropWhile isWs with hm
  have hsplit : m.reverse.takeWhile isWs ++ m.reverse.dropWhile isWs
      = m.reverse := List.takeWhile_append_dropWhile isWs m.reverse
  have hdecomp : m = (m.reverse.dropWhile isWs).reverse
      ++ (m.reverse.takeWhile isWs).reverse := by
    have := congrArg List.reverse hsplit
    rw [List.reverse_append, List.reverse_reverse] at this
    exact this.symm
  have hws : ∀ c ∈ (m.reverse.takeWhile isWs).reverse, isWs c = true := by
    intro c hc
    rw [List.mem_reverse] at hc
    exact List.mem_takeWhile_imp hc
  calc countTokens (m.reverse.dropWhile isWs).reverse
      = countTokens ((m.reverse.dropWhile isWs).reverse
          ++ (m.reverse.takeWhile isWs).reverse) :=
        (countTokens_append_ws _ _ hws).symm
    _ = countTokens m := by rw [← hdecomp]
    _ = countTokens l := by rw [hm, countTokens_dropWhile_ws]

theorem mem_dropWhile_of_neg {c : Char} {l : List Char}
    (hc : c ∈ l) (hw : isWs c = false) : c ∈ l.dropWhile isWs := by
  have hsplit : l.takeWhile isWs ++ l.dropWhile isWs = l :=
    List.takeWhile_append_dropWhile isWs l
  rw [← hsplit, List.mem_append] at hc
  rcases hc with h | h
  · have := List.mem_takeWhile_imp h
    rw [hw] at this
    exact absurd this (by simp)
  · exact h

theorem jsTrim_ne_nil {l : List Char} {c : Char} (hc : c ∈ l)
    (hw : isWs c = false) : jsTrim l ≠ [] := by
  rw [jsTrim]
  have h1 : c ∈ l.dropWhile isWs := mem_dropWhile_of_neg hc hw
  have h2 : c ∈ (l.dropWhile isWs).reverse := List.mem_reverse.mpr h1
  have h3 : c ∈ (l.dropWhile isWs).reverse.dropWhile isWs :=
    mem_dropWhile_of_neg h2 hw
  intro hnil
  rw [List.reverse_eq_nil_iff] at hnil
  rw [hnil] at h3
  exact absurd h3 (List.not_mem_nil c)

/-- On a transcript containing at least one non-whitespace character, the
source's `trim().split(/\s+/).length` equals the spec's whitespace-token
word count. -/
theorem latinCount_eq_specWordCount (t : String)
    (ht : t.toList.any (fun c => !isWs c) = true) :
    latinCount t = specWordCount t := by
  rw [List.any_eq_true] at ht
  obtain ⟨c, hc, hw⟩ := ht
  rw [Bool.not_eq_true' ] at hw
  rw [latinCount, jsSplitWsLen, if_neg (jsTrim_ne_nil hc hw),
    countTokens_jsTrim, specWordCount]

/-- Counterexample to C3 as stated: for the claim's own Latin transcript at
a duration of 1/2 s the code clamps the divisor (`Math.max(durationSeconds, 1)`)
and computes 300, while the claim's formula
`round(word count / (durationSeconds/60))` gives 600. -/
theorem pace_below_one_second_diverges :
    (applyPaceOverride sampleResultLatin "English" (1 / 2)).wpm = 300 ∧
    round ((specWordCount "the quick brown fox jumps" : ℚ) / ((1 / 2 : ℚ) / 60))
      = 600 := by
  constructor
  · show calculatedPace "the quick brown fox jumps" "English" (1 / 2) = 300
    have hc : contentCount "the quick brown fox jumps" "English" = 5 := by decide
    simp only [calculatedPace, hc]
    rw [show max (1 / 2 : ℚ) 1 = 1 from max_eq_right (by norm_num)]
    norm_num [round_eq]
  · have hw : specWordCount "the quick brown fox jumps" = 5 := by decide
    rw [hw]
    norm_num [round_eq]

/-- C3 amended: restricted to durations of at least 1 s (below that the
divisor is clamped to 1, see the counterexample) and to transcripts that are
empty or contain a non-whitespace character (for a whitespace-only transcript
the JS `split` quirk makes the code count 1 word where the spec formula
counts 0), the locally recomputed pace overrides any remote-supplied `wpm`
and equals the spec formula: `round(word count / (d/60))` for Latin-script
languages, `round(CJK content count / (d/60))` for Chinese/Japanese-tagged
ones. -/
theorem pace_matches_spec_formula (result : AnalysisResult) (language : String)
    (durationSeconds : ℚ) (hd : 1 ≤ durationSeconds)
    (ht : result.transcript = "" ∨
      result.transcript.toList.any (fun c => !isWs c) = true) :
    (applyPaceOverride result language durationSeconds).wpm
      = (if isChineseLang language
         then round ((cjkCount result.transcript : ℚ) / (durationSeconds / 60))
         else round ((specWordCount result.transcript : ℚ)
            / (durationSeconds / 60))) ∧
    (∀ w : ℤ,
      (applyPaceOverride { result with wpm := w } language durationSeconds).wpm
        = (applyPaceOverride result language durationSeconds).wpm) := by
  refine ⟨?_, fun w => rfl⟩
  show calculatedPace result.transcript language durationSeconds = _
  have hsafe : max durationSeconds 1 = durationSeconds := max_eq_left hd
  simp only [calculatedPace, hsafe]
  rcases ht with he | hne
  · rw [he]
    have h0 : contentCount "" language = 0 := rfl
    have hcjk : cjkCount "" = 0 := rfl
    have hspec : specWordCount "" = 0 := rfl
    rw [h0, hcjk, hspec]
    cases isChineseLang language <;> simp
  · by_cases he : result.transcript = ""
    · rw [he] at hne ⊢
      have h0 : contentCount "" language = 0 := rfl
      have hcjk : cjkCount "" = 0 := rfl
      have hspec : specWordCount "" = 0 := rfl
      rw [h0, hcjk, hspec]
      cases isChineseLang language <;> simp
    · rw [contentCount, if_neg he]
      cases hch : isChineseLang language with
      | true => rw [if_pos rfl, if_pos rfl]
      | false =>
        rw [if_neg (by simp), if_neg (by simp),
          latinCount_eq_specWordCount result.transcript hne]

/-- Witness for C3 (amended) at the claim's two concrete instances:
"the quick brown fox jumps" over 10 s in English gives wpm 30 (overriding
the remote-supplied 999), a 20-character CJK transcript over 60 s in Chinese
gives pace 20. -/
theorem pace_matches_spec_formula_witness :
    ((1 : ℚ) ≤ 10 ∧
      ((applyPaceOverride sampleResultLatin "English" 10).wpm
          = (if isChineseLang "English"
             then round ((cjkCount sampleResultLatin.transcript : ℚ) / (10 / 60))
             else round ((specWordCount sampleResultLatin.transcript : ℚ)
                / ((10 : ℚ) / 60))) ∧
        (∀ w : ℤ,
          (applyPaceOverride { sampleResultLatin with wpm := w } "English" 10).wpm
            = (applyPaceOverride sampleResultLatin "English" 10).wpm)) ∧
      (applyPaceOverride sampleResultLatin "English" 10).wpm = 30) ∧
    ((1 : ℚ) ≤ 60 ∧
      ((applyPaceOverride sampleResultCjk "Chinese" 60).wpm
          = (if isChineseLang "Chinese"
             then round ((cjkCount sampleResultCjk.transcript : ℚ) / (60 / 60))
             else round ((specWordCount sampleResultCjk.transcript : ℚ)
                / ((60 : ℚ) / 60))) ∧
        (∀ w : ℤ,
          (applyPaceOverride { sampleResultCjk with wpm := w } "Chinese" 60).wpm
            = (applyPaceOverride sampleResultCjk "Chinese" 60).wpm)) ∧
      (applyPaceOverride sampleResultCjk "Chinese" 60).wpm = 20) := by
  refine ⟨⟨by norm_num, ?_, ?_⟩, ⟨by norm_num, ?_, ?_⟩⟩
  · exact pace_matches_spec_formula sampleResultLatin "English" 10 (by norm_num)
      (Or.inr (by decide))
  · show calculatedPace "the quick brown fox jumps" "English" 10 = 30
    have hc : contentCount "the quick brown fox jumps" "English" = 5 := by decide
    simp only [calculatedPace, hc]
    rw [show max (10 : ℚ) 1 = 10 from max_eq_left (by norm_num)]
    norm_num [round_eq]
  · exact pace_matches_spec_formula sampleResultCjk "Chinese" 60 (by norm_num)
      (Or.inr (by decide))
  · show calculatedPace sampleResultCjk.transcript "Chinese" 60 = 20
    have hc : contentCount sampleResultCjk.transcript "Chinese" = 20 := by decide
    simp only [calculatedPace, hc]
    rw [show max (60 : ℚ) 1 = 60 from max_eq_left (by norm_num)]
    norm_num [round_eq]

/-- Counterexample to C10 as stated: the code does not diverge from the raw
`durationSeconds/60` formula for *all* durations below 1 s — at 999/1000 s
with the 5-word transcript both round to the same 300. -/
theorem pace_divergence_not_universal :
    ((999 : ℚ) / 1000 < 1) ∧
    calculatedPace "the quick brown fox jumps" "English" (999 / 1000) = 300 ∧
    round ((contentCount "the quick brown fox jumps" "English" : ℚ)
        / (((999 : ℚ) / 1000) / 60)) = 300 := by
  have hc : contentCount "the quick brown fox jumps" "English" = 5 := by decide
  refine ⟨by norm_num, ?_, ?_⟩
  · simp only [calculatedPace, hc]
    rw [show max (999 / 1000 : ℚ) 1 = 1 from max_eq_right (by norm_num)]
    norm_num [round_eq]
  · rw [hc]
    norm_num [round_eq]

/-- C10 amended: the pace divides by `max(durationSeconds,1)/60`, whose value
for every duration below 1 s (in particular every duration ≤ 0) is the
nonzero constant 1/60, so the computation is total and yields
`round(contentCount * 60)` there; this differs from the raw
`durationSeconds/60` formula for some sub-second durations (e.g. 300 vs 600
at 1/2 s for a 5-word transcript) though the rounded values can also
coincide (see the counterexample). -/
theorem pace_total_below_one_second (transcript language : String)
    (durationSeconds : ℚ) (hd : durationSeconds < 1) :
    max durationSeconds 1 / 60 = 1 / 60 ∧
    max durationSeconds 1 / 60 ≠ 0 ∧
    calculatedPace transcript language durationSeconds
      = round ((contentCount transcript language : ℚ) * 60) := by
  have hmax : max durationSeconds 1 = 1 := max_eq_right (le_of_lt hd)
  refine ⟨by rw [hmax], by rw [hmax]; norm_num, ?_⟩
  simp only [calculatedPace, hmax]
  congr 1
  field_simp

/-- Witness for C10 (amended) at a zero duration: the pace of the 5-word
transcript is total and equals `round(5 * 60) = 300`. -/
theorem pace_total_below_one_second_witness :
    ((0 : ℚ) < 1) ∧
    (max (0 : ℚ) 1 / 60 = 1 / 60 ∧
      max (0 : ℚ) 1 / 60 ≠ 0 ∧
      calculatedPace "the quick brown fox jumps" "English" 0
        = round ((contentCount "the quick brown fox jumps" "English" : ℚ) * 60)) ∧
    calculatedPace "the quick brown fox jumps" "English" 0 = 300 := by
  refine ⟨by norm_num,
    pace_total_below_one_second "the quick brown fox jumps" "English" 0
      (by norm_num), ?_⟩
  have hc : contentCount "the quick brown fox jumps" "English" = 5 := by decide
  simp only [calculatedPace, hc]
  rw [show max (0 : ℚ) 1 = 1 from max_eq_right (by norm_num)]
  norm_num [round_eq]

end InstantSpeech
